import Mathlib

/-!
Shallow embedding of `src/c_src/spectral.c` (ppdmodler spectral library).

Machine doubles are modelled by real numbers; flat `dim*dim` C arrays are
modelled either as index functions `ℕ → ℝ` (one loop index) or as
`ℕ → ℕ → ℝ` (row/column index pair for `mesh[i*dim+j]`), and the 1-D
`linspace` result as a `List ℝ` of length `dim`.
-/

namespace Spectral

noncomputable section

open Real

/-- `const double c = 2.99792458e+10;  // cm/s` -/
def c : ℝ := 2.99792458e10

/-- `const double c2 = 8.98755179e+20; // cm²/s²` -/
def c2 : ℝ := 8.98755179e20

/-- `const double h = 6.62607015e-27;  // erg s` -/
def h : ℝ := 6.62607015e-27

/-- `const double kb = 1.380649e-16;   // erg/K` -/
def kb : ℝ := 1.380649e-16

/-- `const double bb_to_jy = 1.0e+23;  // Jy` -/
def bb_to_jy : ℝ := 1.0e23

/-- Body of the `linspace` loop: `linear_grid[i] = (start + i * step) * factor`
with `step = (stop - start)/dim`. -/
def linspaceF (start stop : ℝ) (dim : ℕ) (factor : ℝ) : ℕ → ℝ :=
  fun i => (start + i * ((stop - start) / dim)) * factor

/-- `linspace` from `spectral.c`: array of length `dim` whose `i`-th entry is
`(start + i * step) * factor`, `step = (stop - start)/dim`. -/
def linspace (start stop : ℝ) (dim : ℕ) (factor : ℝ) : List ℝ :=
  (List.range dim).map (linspaceF start stop dim factor)

/-- `meshgrid` from `spectral.c`: entry `(i, j)` (i.e. `mesh[i*dim+j]`) is
`linear_grid[i]` when `axis == 0` and `linear_grid[j]` otherwise. -/
def meshgrid (linear_grid : ℕ → ℝ) (axis : ℤ) : ℕ → ℕ → ℝ :=
  fun i j => if axis = 0 then linear_grid i else linear_grid j

/-- `struct Grid` from `spectral.h`: the two coordinate planes. -/
structure Grid where
  xx : ℕ → ℕ → ℝ
  yy : ℕ → ℕ → ℝ

/-- One iteration of the elliptic loop in `grid`: the `xx` entry is
overwritten first, and the `yy` update then reads the overwritten value. -/
def ellipticUpdate (pa elong : ℝ) (p : ℝ × ℝ) : ℝ × ℝ :=
  let x := p.1 * Real.cos pa - p.2 * Real.sin pa
  (x, (x * Real.sin pa + p.2 * Real.cos pa) / elong)

/-- `grid` from `spectral.c`: builds `linspace(-0.5, 0.5, dim, dim*pixel_size)`,
broadcasts it into the two planes, then (when `elliptic`) applies the
sequential rotate/elongate update at every pixel. -/
def grid (dim : ℕ) (pixel_size pa elong : ℝ) (elliptic : Bool) : Grid :=
  let x := linspaceF (-0.5) 0.5 dim ((dim : ℝ) * pixel_size)
  let xx := meshgrid x 1
  let yy := meshgrid x 0
  if elliptic then
    { xx := fun i j => (ellipticUpdate pa elong (xx i j, yy i j)).1
      yy := fun i j => (ellipticUpdate pa elong (xx i j, yy i j)).2 }
  else
    { xx := xx, yy := yy }

/-- `radius` from `spectral.c`: `radius[i] = sqrt(pow(xx[i],2) + pow(yy[i],2))`. -/
def radius (xx yy : ℕ → ℕ → ℝ) : ℕ → ℕ → ℝ :=
  fun i j => Real.sqrt ((xx i j) ^ 2 + (yy i j) ^ 2)

/-- `const_temperature` from `spectral.c`. -/
def const_temperature (radius : ℕ → ℝ) (stellar_radius stellar_temperature : ℝ) :
    ℕ → ℝ :=
  fun i => stellar_temperature * Real.sqrt (stellar_radius / (2.0 * radius i))

/-- `temperature_power_law` from `spectral.c`. -/
def temperature_power_law (radius : ℕ → ℝ) (inner_temp inner_radius q : ℝ) :
    ℕ → ℝ :=
  fun i => inner_temp * (radius i / inner_radius) ^ (-q)

/-- `surface_density_profile` from `spectral.c`. -/
def surface_density_profile (radius : ℕ → ℝ) (inner_radius inner_sigma p : ℝ) :
    ℕ → ℝ :=
  fun i => inner_sigma * (radius i / inner_radius) ^ (-p)

/-- C's `atan2(y, x)`, modelled as the argument of the complex number
`x + y·i` (range `(-π, π]`, `atan2 0 0 = 0`). -/
def atan2 (y x : ℝ) : ℝ := Complex.arg ⟨x, y⟩

/-- `azimuthal_modulation` from `spectral.c`:
`modulation[i] = a*cos(atan2(yy[i], xx[i]) - phi)`. -/
def azimuthal_modulation (xx yy : ℕ → ℝ) (a phi : ℝ) : ℕ → ℝ :=
  fun i => a * Real.cos (atan2 (yy i) (xx i) - phi)

/-- `optical_thickness` from `spectral.c`:
`optical_thickness[i] = 1.0 - exp(-surface_density_profile[i]*opacity)`. -/
def optical_thickness (sdp : ℕ → ℝ) (opacity : ℝ) : ℕ → ℝ :=
  fun i => 1 - Real.exp (-sdp i * opacity)

/-- `bb` from `spectral.c`: `nu = c/wavelength`;
`(2.0*h*pow(nu,3)/c2) * (1.0/(exp(h*nu/(kb*temperature)) - 1.0))`. -/
def bb (temperature wavelength : ℝ) : ℝ :=
  let nu := c / wavelength
  (2.0 * h * nu ^ 3 / c2) * (1.0 / (Real.exp (h * nu / (kb * temperature)) - 1.0))

/-- Modelled from the spec (§4.5), for comparison with `bb`: Planck's law
`B(T,λ) = (2hν³/c²) · 1/(exp(hν/(kT)) − 1)` with `ν = c/λ`, the denominator
being the exact square of the speed-of-light constant `c`. -/
def bbPlanckSpec (temperature wavelength : ℝ) : ℝ :=
  let nu := c / wavelength
  (2.0 * h * nu ^ 3 / c ^ 2) * (1.0 / (Real.exp (h * nu / (kb * temperature)) - 1.0))

/-- `intensity` from `spectral.c`:
`intensity[i] = bb(temperature_profile[i], wavelength)*pow(pixel_size,2)*bb_to_jy`. -/
def intensity (temperature_profile : ℕ → ℝ) (wavelength pixel_size : ℝ) : ℕ → ℝ :=
  fun i => bb (temperature_profile i) wavelength * pixel_size ^ 2 * bb_to_jy

lemma linspace_getD (start stop : ℝ) (dim : ℕ) (factor : ℝ) {i : ℕ}
    (hi : i < dim) :
    (linspace start stop dim factor).getD i 0 = linspaceF start stop dim factor i := by
  have hlen : i < (linspace start stop dim factor).length := by
    simpa [linspace] using hi
  rw [List.getD_eq_getElem _ _ hlen]
  simp [linspace]

/-- C1: for the full pipeline with `dim = 2`, `pixel_size = 1`,
`start = -0.5`, `stop = 0.5` and `elliptic = false`, the axis is
`[-1.0, 0.0]`, the planes are `xx = [[-1,0],[-1,0]]` and
`yy = [[-1,-1],[0,0]]`, and the radius field is `[[√2, 1], [1, 0]]`. -/
theorem c1_end_to_end :
    linspace (-0.5) 0.5 2 ((2 : ℕ) * (1 : ℝ)) = [-1.0, 0.0] ∧
    ((grid 2 1 0 1 false).xx 0 0 = -1 ∧ (grid 2 1 0 1 false).xx 0 1 = 0 ∧
     (grid 2 1 0 1 false).xx 1 0 = -1 ∧ (grid 2 1 0 1 false).xx 1 1 = 0) ∧
    ((grid 2 1 0 1 false).yy 0 0 = -1 ∧ (grid 2 1 0 1 false).yy 0 1 = -1 ∧
     (grid 2 1 0 1 false).yy 1 0 = 0 ∧ (grid 2 1 0 1 false).yy 1 1 = 0) ∧
    (radius (grid 2 1 0 1 false).xx (grid 2 1 0 1 false).yy 0 0 = Real.sqrt 2 ∧
     radius (grid 2 1 0 1 false).xx (grid 2 1 0 1 false).yy 0 1 = 1 ∧
     radius (grid 2 1 0 1 false).xx (grid 2 1 0 1 false).yy 1 0 = 1 ∧
     radius (grid 2 1 0 1 false).xx (grid 2 1 0 1 false).yy 1 1 = 0) := by
  norm_num [linspace, linspaceF, grid, meshgrid, radius, List.range_succ,
    Real.sqrt_one]

/-- C2: with `elliptic = true`, every pixel gets the sequential update
`xx' = xx·cos pa − yy·sin pa` followed by `yy' = (xx'·sin pa + yy·cos pa)/elong`
where the second equation reads the already-rotated `xx'`; with
`elliptic = false` the planes are the unrotated meshes, with no division by
`elong`.  The last conjunct shows at a concrete input that reading the
original `xx` instead would give a different value. -/
theorem c2_elliptic_sequential (dim : ℕ) (pixel_size pa elong : ℝ) (i j : ℕ) :
    ((grid dim pixel_size pa elong true).xx i j =
        (grid dim pixel_size pa elong false).xx i j * Real.cos pa -
        (grid dim pixel_size pa elong false).yy i j * Real.sin pa) ∧
    ((grid dim pixel_size pa elong true).yy i j =
        ((grid dim pixel_size pa elong true).xx i j * Real.sin pa +
         (grid dim pixel_size pa elong false).yy i j * Real.cos pa) / elong) ∧
    ((grid dim pixel_size pa elong false).xx i j =
        meshgrid (linspaceF (-0.5) 0.5 dim ((dim : ℝ) * pixel_size)) 1 i j ∧
     (grid dim pixel_size pa elong false).yy i j =
        meshgrid (linspaceF (-0.5) 0.5 dim ((dim : ℝ) * pixel_size)) 0 i j) ∧
    (grid 2 1 (Real.pi / 2) 1 true).yy 0 0 ≠
      ((grid 2 1 (Real.pi / 2) 1 false).xx 0 0 * Real.sin (Real.pi / 2) +
       (grid 2 1 (Real.pi / 2) 1 false).yy 0 0 * Real.cos (Real.pi / 2)) / 1 := by
  refine ⟨?_, ?_, ⟨rfl, rfl⟩, ?_⟩
  · simp [grid, ellipticUpdate]
  · simp [grid, ellipticUpdate]
  · norm_num [grid, meshgrid, ellipticUpdate, linspaceF,
      Real.cos_pi_div_two, Real.sin_pi_div_two]

/-- C3 counterexample: with `start = stop = 0`, `dim = 2 > 1`, `factor = 1`,
the last axis element equals `stop·factor`, so the claimed unconditional
exclusion of `stop·factor` for `dim > 1` is false. -/
theorem c3_counterexample :
    (1 : ℕ) < 2 ∧ (linspace 0 0 2 1).getD (2 - 1) 0 = (0 : ℝ) * 1 := by
  norm_num [linspace, linspaceF, List.range_succ]

/-- C3 (amended): for `dim ≥ 1` the axis has length `dim` and entry
`i < dim` equals `(start + i·(stop−start)/dim)·factor`; in particular
`axis[0] = start·factor` and `axis[dim−1] = (start + (dim−1)·(stop−start)/dim)·factor`,
and the value `stop·factor` is excluded for `dim > 1` provided
`start ≠ stop` and `factor ≠ 0`. -/
theorem c3_linspace_amended (start stop factor : ℝ) (dim i : ℕ)
    (hdim : 1 ≤ dim) (hi : i < dim) :
    (linspace start stop dim factor).length = dim ∧
    (linspace start stop dim factor).getD i 0 =
      (start + i * (stop - start) / dim) * factor ∧
    (linspace start stop dim factor).getD 0 0 = start * factor ∧
    (linspace start stop dim factor).getD (dim - 1) 0 =
      (start + ((dim - 1 : ℕ) : ℝ) * (stop - start) / dim) * factor ∧
    (start ≠ stop → factor ≠ 0 → 1 < dim →
      (linspace start stop dim factor).getD (dim - 1) 0 ≠ stop * factor) := by
  have hget : ∀ k, k < dim → (linspace start stop dim factor).getD k 0 =
      (start + k * (stop - start) / dim) * factor := by
    intro k hk
    rw [linspace_getD _ _ _ _ hk, linspaceF, mul_div_assoc]
  refine ⟨by simp [linspace], hget i hi, ?_, hget (dim - 1) (by omega), ?_⟩
  · simpa using hget 0 (by omega)
  · intro hne hf hlt heq
    rw [hget (dim - 1) (by omega)] at heq
    have hcast : ((dim - 1 : ℕ) : ℝ) = (dim : ℝ) - 1 := by
      push_cast [Nat.cast_sub hdim]
      ring
    rw [hcast] at heq
    have h2 : start + ((dim : ℝ) - 1) * (stop - start) / dim = stop :=
      mul_right_cancel₀ hf heq
    have hd : ((dim : ℝ)) ≠ 0 := Nat.cast_ne_zero.mpr (by omega)
    apply hne
    field_simp at h2
    nlinarith [h2]

/-- C3 witness: the amended theorem applied at
`start = 0, stop = 1, factor = 3, dim = 2, i = 1`. -/
theorem c3_linspace_amended_witness :
    (linspace 0 1 2 3).length = 2 ∧
    (linspace 0 1 2 3).getD 1 0 = ((0 : ℝ) + 1 * (1 - 0) / 2) * 3 ∧
    (linspace 0 1 2 3).getD (2 - 1) 0 ≠ (1 : ℝ) * 3 := by
  obtain ⟨h1, h2, -, -, h5⟩ :=
    c3_linspace_amended 0 1 3 2 1 (by norm_num) (by norm_num)
  exact ⟨h1, by simpa using h2, h5 (by norm_num) (by norm_num) (by norm_num)⟩

/-- C4: with `elliptic = false`, `xx[i][j]` repeats the axis along rows
(`xx i j = axis j`), `yy[i][j]` repeats it along columns (`yy i j = axis i`),
and so `xx i j = yy j i` (transpose symmetry). -/
theorem c4_broadcast_transpose (dim : ℕ) (pixel_size pa elong : ℝ) (i j : ℕ)
    (_hi : i < dim) (_hj : j < dim) :
    (grid dim pixel_size pa elong false).xx i j =
      linspaceF (-0.5) 0.5 dim ((dim : ℝ) * pixel_size) j ∧
    (grid dim pixel_size pa elong false).yy i j =
      linspaceF (-0.5) 0.5 dim ((dim : ℝ) * pixel_size) i ∧
    (grid dim pixel_size pa elong false).xx i j =
      (grid dim pixel_size pa elong false).yy j i := by
  refine ⟨?_, ?_, ?_⟩ <;> simp [grid, meshgrid]

/-- C4 witness: the broadcast theorem at `dim = 2, pixel_size = 1, i = 0, j = 1`. -/
theorem c4_broadcast_transpose_witness :
    (grid 2 1 5 7 false).xx 0 1 = linspaceF (-0.5) 0.5 2 (((2 : ℕ) : ℝ) * 1) 1 ∧
    (grid 2 1 5 7 false).yy 0 1 = linspaceF (-0.5) 0.5 2 (((2 : ℕ) : ℝ) * 1) 0 ∧
    (grid 2 1 5 7 false).xx 0 1 = (grid 2 1 5 7 false).yy 1 0 :=
  c4_broadcast_transpose 2 1 5 7 0 1 (by norm_num) (by norm_num)

/-- C5 counterexample: `bb` does not compute the exact Planck law
`(2hν³/c²)·1/(exp(hν/(kT))−1)` — at `T = 1`, `λ = 1` its value differs from
the spec formula, because the hard-coded denominator constant `c2` is not the
exact square of the speed-of-light constant `c`. -/
theorem c5_counterexample : bb 1 1 ≠ bbPlanckSpec 1 1 := by
  intro heq
  have e1 : bb 1 1 = 2 * h * c ^ 3 / c2 * (1 / (Real.exp (h * c / kb) - 1)) := by
    norm_num [bb]
  have e2 : bbPlanckSpec 1 1 =
      2 * h * c ^ 3 / c ^ 2 * (1 / (Real.exp (h * c / kb) - 1)) := by
    norm_num [bbPlanckSpec]
  rw [e1, e2] at heq
  have hx : 0 < h * c / kb := by norm_num [h, c, kb]
  have hw : 0 < Real.exp (h * c / kb) - 1 := by
    have h1 := Real.one_lt_exp_iff.mpr hx
    linarith
  have hwne : (1 : ℝ) / (Real.exp (h * c / kb) - 1) ≠ 0 :=
    (one_div_pos.mpr hw).ne'
  have hA : 2 * h * c ^ 3 / c2 = 2 * h * c ^ 3 / c ^ 2 :=
    mul_right_cancel₀ hwne heq
  have hc2 : (c2 : ℝ) ≠ 0 := by norm_num [c2]
  have hcc : (c : ℝ) ^ 2 ≠ 0 := by norm_num [c]
  rw [div_eq_div_iff hc2 hcc] at hA
  have hnum : (2 : ℝ) * h * c ^ 3 ≠ 0 := by norm_num [h, c]
  have hfin : (c : ℝ) ^ 2 = c2 := mul_left_cancel₀ hnum hA
  norm_num [c, c2] at hfin

/-- C5 (amended): `bb` returns `(2hν³/c2)·1/(exp(hν/(kT))−1)` with `ν = c/λ`,
where the denominator constant `c2` is the hard-coded literal `8.98755179e20`,
which is strictly larger than the exact square of the speed-of-light constant
but agrees with it to within `3e11` (a relative error below `1e-9`). -/
theorem c5_bb_amended (temperature wavelength : ℝ) :
    bb temperature wavelength =
      (2 * h * (c / wavelength) ^ 3 / c2) *
        (1 / (Real.exp (h * (c / wavelength) / (kb * temperature)) - 1)) ∧
    c2 = 8.98755179e20 ∧ c ^ 2 < c2 ∧ c2 - c ^ 2 < 3e11 := by
  refine ⟨by norm_num [bb], by norm_num [c2], ?_, ?_⟩ <;> norm_num [c, c2]

/-- C6: `intensity` is the pointwise product
`bb(T[i], λ) · pixel_size² · bb_to_jy`, and the flux-unit factor `bb_to_jy`
is the fixed erg-to-Jansky constant `1.0e23`. -/
theorem c6_intensity_pointwise (temperature_profile : ℕ → ℝ)
    (wavelength pixel_size : ℝ) (dim i : ℕ)
    (_hdim : 1 ≤ dim) (_hwl : 0 < wavelength) (_hi : i < dim * dim) :
    intensity temperature_profile wavelength pixel_size i =
      bb (temperature_profile i) wavelength * pixel_size ^ 2 * bb_to_jy ∧
    bb_to_jy = 1.0e23 :=
  ⟨rfl, rfl⟩

/-- C6 witness: the intensity theorem at a constant 100 K field,
`λ = 1`, `pixel_size = 2`, `dim = 1`, `i = 0`. -/
theorem c6_intensity_pointwise_witness :
    intensity (fun _ => 100) 1 2 0 = bb 100 1 * 2 ^ 2 * bb_to_jy ∧
    bb_to_jy = 1.0e23 :=
  c6_intensity_pointwise (fun _ => 100) 1 2 1 0 (by norm_num) (by norm_num)
    (by norm_num)

/-- C7: `τ = 1 − exp(−Σ·κ)` is strictly increasing in the product `Σ·κ`,
tends to `0` as `Σ·κ → 0` and tends to `1` as `Σ·κ → +∞`. -/
theorem c7_optical_thickness_mono (sdp1 sdp2 : ℕ → ℝ) (opacity1 opacity2 : ℝ)
    (i : ℕ) (hlt : sdp1 i * opacity1 < sdp2 i * opacity2) :
    optical_thickness sdp1 opacity1 i < optical_thickness sdp2 opacity2 i ∧
    Filter.Tendsto (fun x : ℝ => optical_thickness (fun _ => x) 1 0)
      (nhds 0) (nhds 0) ∧
    Filter.Tendsto (fun x : ℝ => optical_thickness (fun _ => x) 1 0)
      Filter.atTop (nhds 1) := by
  refine ⟨?_, ?_, ?_⟩
  · simp only [optical_thickness]
    have hexp : Real.exp (-sdp2 i * opacity2) < Real.exp (-sdp1 i * opacity1) := by
      apply Real.exp_lt_exp.mpr
      rw [neg_mul, neg_mul]
      exact neg_lt_neg hlt
    linarith
  · have hc : Continuous fun x : ℝ => 1 - Real.exp (-x * 1) := by continuity
    have ht := hc.tendsto 0
    simpa [optical_thickness] using ht
  · have hexp0 : Filter.Tendsto (fun x : ℝ => Real.exp (-x))
        Filter.atTop (nhds 0) :=
      Real.tendsto_exp_neg_atTop_nhds_zero
    have ht := Filter.Tendsto.sub
      (tendsto_const_nhds : Filter.Tendsto (fun _ : ℝ => (1 : ℝ))
        Filter.atTop (nhds 1)) hexp0
    simpa [optical_thickness] using ht

/-- C7 witness: the optical-thickness theorem at constant fields `0` and `1`
with both opacities `1` and pixel `0`. -/
theorem c7_optical_thickness_mono_witness :
    optical_thickness (fun _ => 0) 1 0 < optical_thickness (fun _ => 1) 1 0 ∧
    Filter.Tendsto (fun x : ℝ => optical_thickness (fun _ => x) 1 0)
      (nhds 0) (nhds 0) ∧
    Filter.Tendsto (fun x : ℝ => optical_thickness (fun _ => x) 1 0)
      Filter.atTop (nhds 1) :=
  c7_optical_thickness_mono (fun _ => 0) (fun _ => 1) 1 1 0 (by norm_num)

/-- C8: for every fixed wavelength `λ > 0`, `bb` is strictly increasing in
the temperature: `0 < T1 < T2` implies `bb T1 λ < bb T2 λ`. -/
theorem c8_bb_strict_mono (wavelength T1 T2 : ℝ)
    (hwl : 0 < wavelength) (hT1 : 0 < T1) (hT12 : T1 < T2) :
    bb T1 wavelength < bb T2 wavelength := by
  have hc : (0 : ℝ) < c := by norm_num [c]
  have hh : (0 : ℝ) < h := by norm_num [h]
  have hkb : (0 : ℝ) < kb := by norm_num [kb]
  have hc2 : (0 : ℝ) < c2 := by norm_num [c2]
  have hnu : 0 < c / wavelength := div_pos hc hwl
  have e1 : bb T1 wavelength = 2 * h * (c / wavelength) ^ 3 / c2 *
      (1 / (Real.exp (h * (c / wavelength) / (kb * T1)) - 1)) := by
    norm_num [bb]
  have e2 : bb T2 wavelength = 2 * h * (c / wavelength) ^ 3 / c2 *
      (1 / (Real.exp (h * (c / wavelength) / (kb * T2)) - 1)) := by
    norm_num [bb]
  rw [e1, e2]
  have hT2 : 0 < T2 := hT1.trans hT12
  have hK : 0 < 2 * h * (c / wavelength) ^ 3 / c2 :=
    div_pos (mul_pos (mul_pos (by norm_num) hh) (pow_pos hnu 3)) hc2
  have ha2 : 0 < h * (c / wavelength) / (kb * T2) :=
    div_pos (mul_pos hh hnu) (mul_pos hkb hT2)
  have ha21 : h * (c / wavelength) / (kb * T2) <
      h * (c / wavelength) / (kb * T1) := by
    apply div_lt_div_of_pos_left (mul_pos hh hnu) (mul_pos hkb hT1)
    exact (mul_lt_mul_left hkb).mpr hT12
  have hexp2 : 1 < Real.exp (h * (c / wavelength) / (kb * T2)) :=
    Real.one_lt_exp_iff.mpr ha2
  have hexp : Real.exp (h * (c / wavelength) / (kb * T2)) <
      Real.exp (h * (c / wavelength) / (kb * T1)) :=
    Real.exp_lt_exp.mpr ha21
  have hd2 : 0 < Real.exp (h * (c / wavelength) / (kb * T2)) - 1 := by linarith
  have hd1 : 0 < Real.exp (h * (c / wavelength) / (kb * T1)) - 1 := by linarith
  have hrec : 1 / (Real.exp (h * (c / wavelength) / (kb * T1)) - 1) <
      1 / (Real.exp (h * (c / wavelength) / (kb * T2)) - 1) :=
    one_div_lt_one_div_of_lt hd2 (by linarith)
  exact mul_lt_mul_of_pos_left hrec hK

/-- C8 witness: strict temperature monotonicity of `bb` at
`λ = 1`, `T1 = 1`, `T2 = 2`. -/
theorem c8_bb_strict_mono_witness : bb 1 1 < bb 2 1 :=
  c8_bb_strict_mono 1 1 2 (by norm_num) (by norm_num) (by norm_num)

/-- C9: every output of `azimuthal_modulation` is bounded in magnitude by
the amplitude: `|a·cos(atan2(yy[i], xx[i]) − φ)| ≤ |a|`. -/
theorem c9_modulation_bounded (xx yy : ℕ → ℝ) (a phi : ℝ) (i : ℕ) :
    |azimuthal_modulation xx yy a phi i| ≤ |a| := by
  simp only [azimuthal_modulation, abs_mul]
  have hcos := Real.abs_cos_le_one (atan2 (yy i) (xx i) - phi)
  calc |a| * |Real.cos (atan2 (yy i) (xx i) - phi)| ≤ |a| * 1 :=
        mul_le_mul_of_nonneg_left hcos (abs_nonneg a)
    _ = |a| := mul_one _

/-- C10: at a pixel with both coordinates zero, `azimuthal_modulation` is
well defined: `atan2 0 0 = 0`, so the output is `a·cos(−φ) = a·cos φ`. -/
theorem c10_modulation_at_origin (xx yy : ℕ → ℝ) (a phi : ℝ) (i : ℕ)
    (hx : xx i = 0) (hy : yy i = 0) :
    atan2 0 0 = 0 ∧
    azimuthal_modulation xx yy a phi i = a * Real.cos phi := by
  have h00 : atan2 0 0 = 0 := by
    have hz : ((⟨0, 0⟩ : ℂ)) = 0 := by
      apply Complex.ext <;> simp
    simp only [atan2, hz, Complex.arg_zero]
  refine ⟨h00, ?_⟩
  simp only [azimuthal_modulation, hx, hy, h00, zero_sub, Real.cos_neg]

/-- C10 witness: the origin theorem at the all-zero planes with
`a = 5`, `φ = 3`, `i = 0`. -/
theorem c10_modulation_at_origin_witness :
    atan2 0 0 = 0 ∧
    azimuthal_modulation (fun _ => 0) (fun _ => 0) 5 3 0 = 5 * Real.cos 3 :=
  c10_modulation_at_origin (fun _ => 0) (fun _ => 0) 5 3 0 rfl rfl

end

end Spectral
